import Mathlib

/-!
Verification development for the resumable Google-Drive-to-YouTube transfer
engine (`sequential_uploader.py`, class `RobustUploader`).

The Python code is shallowly embedded: the mutable object state
(`used_recipes`, `resume_data`, the `temp_videos` directory) becomes an
explicit `SysState` record threaded through each operation; blocking network
and subprocess interactions become explicit event lists / environment
parameters; observable side effects (persisting the ledger and resume file,
sleeping for backoff, network fetches, file writes/deletes) are collected in
an explicit effect trace.  Float arithmetic in `compress_video` (sizes in MB,
the `0.9` reduction check, the bitrate formula) is modelled over `ℚ`; file
sizes are exact powers-of-two scalings so this matches the Python doubles
except for the rounding of the literal `0.9` itself, which no claim depends
on.
-/

namespace SeqUploader

/-- Pipeline stage names written into `resume_data` by the source
(`'downloading'`, `'compressing'`, `'uploading'`). -/
inductive Stage
  | downloading
  | compressing
  | uploading
deriving DecidableEq, Repr

/-- One record of `resume_data`: the source stores
`{'status', 'start_time', 'dish_name'}` (written by `download_video`) and
additionally `'video_path'` once `upload_to_youtube` starts. -/
structure ResumeRecord where
  status : Stage
  startTime : String
  dishName : String
  videoPath : Option String
deriving DecidableEq, Repr

/-- The mutable state of a `RobustUploader` instance together with the local
file system: `used_recipes` (the completion ledger, a set of id strings,
modelled as a duplicate-free list), `resume_data` (a dict, modelled as an
association list in insertion order), and the sizes of the local artifact
files (path ↦ byte size). -/
structure SysState where
  usedRecipes : List String
  resumeData : List (String × ResumeRecord)
  fs : List (String × Nat)
deriving DecidableEq, Repr

/-- Dictionary lookup on the resume mapping (first matching key). -/
def rdLookup (m : List (String × ResumeRecord)) (k : String) : Option ResumeRecord :=
  (m.find? (fun p => p.1 == k)).map (fun p => p.2)

/-- Dictionary assignment `m[k] = v`: replaces the value at an existing key in
place, otherwise appends at the end (Python dict insertion-order semantics). -/
def rdInsert (m : List (String × ResumeRecord)) (k : String) (v : ResumeRecord) :
    List (String × ResumeRecord) :=
  if (rdLookup m k).isSome then
    m.map (fun p => if p.1 == k then (k, v) else p)
  else
    m ++ [(k, v)]

/-- Dictionary deletion `del m[k]`. -/
def rdErase (m : List (String × ResumeRecord)) (k : String) :
    List (String × ResumeRecord) :=
  m.filter (fun p => ¬ p.1 == k)

/-- File-system lookup: `some size` iff the path exists (`os.path.exists` /
`os.path.getsize`). -/
def fsLookup (fs : List (String × Nat)) (p : String) : Option Nat :=
  (fs.find? (fun e => e.1 == p)).map (fun e => e.2)

/-- Writing a file of `n` bytes at path `p` (overwrite or create). -/
def fsWrite (fs : List (String × Nat)) (p : String) (n : Nat) : List (String × Nat) :=
  if (fsLookup fs p).isSome then
    fs.map (fun e => if e.1 == p then (p, n) else e)
  else
    fs ++ [(p, n)]

/-- Deleting a file (`os.remove`). -/
def fsErase (fs : List (String × Nat)) (p : String) : List (String × Nat) :=
  fs.filter (fun e => ¬ e.1 == p)

/-- Observable side effects of the engine: resume-state mutations and their
persistence (`_save_resume_data`), ledger mutation and persistence
(`used_recipes.add` + `json.dump`), backoff sleeps, network interactions and
artifact file writes/deletions. -/
inductive Effect
  | resumeSet (id : String) (r : ResumeRecord)
  | resumeDel (id : String)
  | persistResume
  | ledgerAdd (id : String)
  | persistLedger
  | sleep (secs : Nat)
  | netFetch
  | fileWrite (path : String) (bytes : Nat)
  | fileDelete (path : String)
deriving DecidableEq, Repr

/-- Which pipeline stage functions `process_single_recipe` invoked, with their
arguments. -/
inductive StageCall
  | download (id : String)
  | compress (inputPath : String) (id : String)
  | upload (videoPath : String) (id : String)
deriving DecidableEq, Repr

/-- Path of the downloaded original artifact:
`os.path.join(self.temp_dir, f"original_{recipe_id}.mp4")`. -/
def origPath (rid : String) : String :=
  ("temp_videos/original_") ++ rid ++ (".mp4")

/-- Path of the compressed artifact:
`os.path.join(self.temp_dir, f"compressed_{recipe_id}.mp4")`. -/
def compPath (rid : String) : String :=
  ("temp_videos/compressed_") ++ rid ++ (".mp4")

/-- Downloader timeout backoff, `sequential_uploader.py` line 267:
`delay = min(2 ** retry_count, 60)`. -/
def downloadBackoffDelay (attempt : Nat) : Nat := min (2 ^ attempt) 60

/-- Uploader backoff used for timeouts/stalls (line 504), server errors
(line 517) and other upload errors (line 531): `min(2 ** retry_count, 120)`. -/
def uploadBackoffDelay (attempt : Nat) : Nat := min (2 ^ attempt) 120

/-- Cumulative character length of a tag list:
`total_tags_length = sum(len(tag) for tag in tags)`. -/
def totalTagsLength (tags : List String) : Nat :=
  (tags.map String.length).sum

/-- One-step-per-fuel unfolding of the trimming loop (lines 431-433):
`while total_tags_length > 490 and len(tags) > 5: tags.pop(); recompute`.
Each iteration removes exactly one trailing tag, so `tags.length` fuel always
suffices; the fuel only renders the loop structurally recursive. -/
def trimTagsAux : Nat → List String → List String
  | 0, tags => tags
  | fuel + 1, tags =>
    if 490 < totalTagsLength tags ∧ 5 < tags.length then
      trimTagsAux fuel tags.dropLast
    else
      tags

/-- The tag-trimming loop of `upload_to_youtube` (lines 429-433). -/
def trimTags (tags : List String) : List String :=
  trimTagsAux tags.length tags

/-- `_extract_file_id`: `drive_url.split('/file/d/')[1].split('/')[0]` when
`'/file/d/' in drive_url`, else `None`. -/
def extract_file_id (driveUrl : String) : Option String :=
  match driveUrl.splitOn ("/file/d/") with
  | _ :: second :: _ => some ((second.splitOn ("/")).headD (""))
  | _ => none

/-! ## Chunked uploader (`upload_to_youtube`, lines 383-555)

The retry loop around `upload_request.next_chunk()` is driven by a list of
`ChunkEvent`s, each describing what one `next_chunk` call did: reported
progress, returned the final response, raised `socket.timeout`, raised an
`HttpError` with a status, or raised some other exception. -/

/-- Outcome of one `next_chunk()` call inside the upload retry loop. -/
inductive ChunkEvent
  | progress (pct : Nat)
  | complete (videoId : String)
  | timeout
  | httpError (status : Nat)
  | otherError
deriving DecidableEq, Repr

/-- Loop-local mutable variables of the upload retry loop (lines 473-475):
`retry_count`, `last_progress`, `stalled_count`. -/
structure LoopSt where
  retryCount : Nat
  lastProgress : Nat
  stalledCount : Nat
deriving DecidableEq, Repr

/-- How the upload retry loop ended. -/
inductive LoopOutcome
  | completed (videoId : String)
  | exhausted
  | raisedTimeout
  | raisedHttp (status : Nat)
  | raisedOther
  | noMoreEvents
deriving DecidableEq, Repr

/-- The retryable HTTP statuses of line 515: `[500, 502, 503, 504]`. -/
def serverErrors : List Nat := [500, 502, 503, 504]

/-- The upload retry loop (lines 478-533).  `while response is None and
retry_count < max_retries`: a progress report equal to `last_progress`
increments `stalled_count`, and once `stalled_count > 5` the loop raises
`socket.timeout("Upload stalled")` into its own timeout handler; a changed
progress report resets `stalled_count` to `0` and records the new percentage.
Timeouts, retryable server errors and other exceptions increment
`retry_count`, sleep `min(2 ** retry_count, 120)` and re-raise once
`retry_count >= max_retries`; any other `HttpError` is re-raised immediately.
Returns the outcome, the final loop variables and the trace of effects. -/
def uploadLoop (maxRetries : Nat) : List ChunkEvent → LoopSt → LoopOutcome × LoopSt × List Effect
  | [], ls => (.noMoreEvents, ls, [])
  | e :: rest, ls =>
    if maxRetries ≤ ls.retryCount then (.exhausted, ls, [])
    else
      match e with
      | .complete vid => (.completed vid, ls, [])
      | .progress pct =>
        if pct = ls.lastProgress then
          if 5 < ls.stalledCount + 1 then
            -- `raise socket.timeout("Upload stalled")`, caught by the
            -- `except socket.timeout` handler of the same iteration
            let rc := ls.retryCount + 1
            let d := uploadBackoffDelay rc
            if maxRetries ≤ rc then
              (.raisedTimeout, ⟨rc, ls.lastProgress, ls.stalledCount + 1⟩, [Effect.sleep d])
            else
              let r := uploadLoop maxRetries rest ⟨rc, ls.lastProgress, ls.stalledCount + 1⟩
              (r.1, r.2.1, Effect.sleep d :: r.2.2)
          else
            uploadLoop maxRetries rest ⟨ls.retryCount, ls.lastProgress, ls.stalledCount + 1⟩
        else
          uploadLoop maxRetries rest ⟨ls.retryCount, pct, 0⟩
      | .timeout =>
        let rc := ls.retryCount + 1
        let d := uploadBackoffDelay rc
        if maxRetries ≤ rc then
          (.raisedTimeout, ⟨rc, ls.lastProgress, ls.stalledCount⟩, [Effect.sleep d])
        else
          let r := uploadLoop maxRetries rest ⟨rc, ls.lastProgress, ls.stalledCount⟩
          (r.1, r.2.1, Effect.sleep d :: r.2.2)
      | .httpError s =>
        if serverErrors.contains s then
          let rc := ls.retryCount + 1
          let d := uploadBackoffDelay rc
          if maxRetries ≤ rc then
            (.raisedHttp s, ⟨rc, ls.lastProgress, ls.stalledCount⟩, [Effect.sleep d])
          else
            let r := uploadLoop maxRetries rest ⟨rc, ls.lastProgress, ls.stalledCount⟩
            (r.1, r.2.1, Effect.sleep d :: r.2.2)
        else
          -- "For other HTTP errors, don't retry" (lines 522-525)
          (.raisedHttp s, ls, [])
      | .otherError =>
        let rc := ls.retryCount + 1
        let d := uploadBackoffDelay rc
        if maxRetries ≤ rc then
          (.raisedOther, ⟨rc, ls.lastProgress, ls.stalledCount⟩, [Effect.sleep d])
        else
          let r := uploadLoop maxRetries rest ⟨rc, ls.lastProgress, ls.stalledCount⟩
          (r.1, r.2.1, Effect.sleep d :: r.2.2)

/-- Result of `upload_to_youtube`: the returned URL, a propagated exception
from the retry loop (or the final `Exception` when the loop exhausted its
retries with no response), or the `KeyError` raised by line 388 when the
recipe has no resume record. -/
inductive UploadOutcome
  | ok (url : String)
  | failed (reason : LoopOutcome)
  | keyError
deriving DecidableEq, Repr

/-- `upload_to_youtube` (lines 383-555), abstracted over the chunk events.
It first marks the resume record as `'uploading'` with the video path and
persists it (lines 388-390; a missing record raises `KeyError`).  The
metadata payload built in lines 393-447 is opaque to the engine and is not
modelled (its tag-trimming loop is `trimTags`).  On a confirmed response it
adds the id to `used_recipes`, dumps the ledger to disk, deletes the resume
record and persists resume data (lines 535-549); on any loop failure the
exception propagates with the state unchanged since entry. -/
def upload_to_youtube (rid vp : String) (events : List ChunkEvent) (maxRetries : Nat)
    (st : SysState) : UploadOutcome × SysState × List Effect :=
  match rdLookup st.resumeData rid with
  | none => (.keyError, st, [])
  | some rec0 =>
    let rec1 := { rec0 with status := Stage.uploading, videoPath := some vp }
    let st1 : SysState := { st with resumeData := rdInsert st.resumeData rid rec1 }
    let pre := [Effect.resumeSet rid rec1, Effect.persistResume]
    let lr := uploadLoop maxRetries events ⟨0, 0, 0⟩
    match lr.1 with
    | .completed vid =>
      let used2 := if st1.usedRecipes.contains rid then st1.usedRecipes else st1.usedRecipes ++ [rid]
      let st2 : SysState := { st1 with usedRecipes := used2 }
      let clear :=
        if (rdLookup st2.resumeData rid).isSome then
          ({ st2 with resumeData := rdErase st2.resumeData rid },
            [Effect.resumeDel rid, Effect.persistResume])
        else
          (st2, ([] : List Effect))
      (.ok (("https://www.youtube.com/watch?v=") ++ vid), clear.1,
        pre ++ lr.2.2 ++ [Effect.ledgerAdd rid, Effect.persistLedger] ++ clear.2)
    | o => (.failed o, st1, pre ++ lr.2.2)

/-! ## Chunked downloader (`download_video`, lines 206-286) -/

/-- Outcome of one interaction with the Drive service inside the download
retry loop: a partial chunk, the final chunk (carrying the total byte size of
the downloaded content), an inner per-chunk `socket.timeout` (line 250), an
outer `socket.timeout` (line 263) or another exception (line 273). -/
inductive DlEvent
  | chunkPart (pct : Nat)
  | chunkDone (totalBytes : Nat)
  | chunkTimeout
  | timeout
  | otherError
deriving DecidableEq, Repr

/-- How the download retry loop ended. -/
inductive DlLoopOut
  | done (totalBytes : Nat)
  | raisedTimeout
  | raisedOther
  | exhausted
  | noMoreEvents
deriving DecidableEq, Repr

/-- The download retry loop (lines 235-282).  An inner chunk timeout sleeps
`min(2 ** retry_count, 30)` and retries the chunk without touching
`retry_count`; an outer timeout increments `retry_count` and sleeps
`min(2 ** retry_count, 60)` or re-raises on exhaustion; other errors
increment `retry_count` and sleep a fixed `10` seconds or re-raise.  Every
event is one network interaction (`netFetch`). -/
def dlLoop (maxRetries : Nat) : List DlEvent → Nat → DlLoopOut × List Effect
  | [], _ => (.noMoreEvents, [])
  | e :: rest, rc =>
    if maxRetries ≤ rc then (.exhausted, [])
    else
      match e with
      | .chunkPart _ =>
        let r := dlLoop maxRetries rest rc
        (r.1, Effect.netFetch :: r.2)
      | .chunkDone n => (.done n, [Effect.netFetch])
      | .chunkTimeout =>
        let r := dlLoop maxRetries rest rc
        (r.1, Effect.netFetch :: Effect.sleep (min (2 ^ rc) 30) :: r.2)
      | .timeout =>
        if rc + 1 < maxRetries then
          let r := dlLoop maxRetries rest (rc + 1)
          (r.1, Effect.netFetch :: Effect.sleep (downloadBackoffDelay (rc + 1)) :: r.2)
        else
          (.raisedTimeout, [Effect.netFetch])
      | .otherError =>
        if rc + 1 < maxRetries then
          let r := dlLoop maxRetries rest (rc + 1)
          (r.1, Effect.netFetch :: Effect.sleep 10 :: r.2)
        else
          (.raisedOther, [Effect.netFetch])

/-- Result of `download_video`: the local artifact path, the `ValueError` for
a locator without an embedded file id (lines 227-229), or a propagated loop
failure. -/
inductive DlOutcome
  | ok (path : String)
  | invalidUrl
  | failedLoop (o : DlLoopOut)
deriving DecidableEq, Repr

/-- A catalog entry, with the fields the transfer engine reads:
`str(recipe['id'])`, `recipe['dish_name']` and `recipe['public_url']`. -/
structure Recipe where
  id : String
  dishName : String
  publicUrl : String
deriving DecidableEq, Repr

/-- `download_video` (lines 206-286).  It first replaces the resume record
with `{'status': 'downloading', 'start_time': now, 'dish_name': ...}` and
persists it (lines 211-216); then, if the original artifact already exists
with size strictly greater than 1 MiB, short-circuits and returns its path
(lines 219-225) — no network interaction; otherwise extracts the file id from
the Drive URL (raising `ValueError` on failure) and runs the chunked retry
loop, writing the downloaded bytes to the artifact path on completion. -/
def download_video (r : Recipe) (now : String) (events : List DlEvent) (maxRetries : Nat)
    (st : SysState) : DlOutcome × SysState × List Effect :=
  let rid := r.id
  let rec0 : ResumeRecord := ⟨Stage.downloading, now, r.dishName, none⟩
  let st1 : SysState := { st with resumeData := rdInsert st.resumeData rid rec0 }
  let pre := [Effect.resumeSet rid rec0, Effect.persistResume]
  let path := origPath rid
  let cachedOk : Bool :=
    match fsLookup st1.fs path with
    | some sz => decide (1048576 < sz)
    | none => false
  if cachedOk then (.ok path, st1, pre)
  else
    match extract_file_id r.publicUrl with
    | none => (.invalidUrl, st1, pre)
    | some fid =>
      if fid = "" then (.invalidUrl, st1, pre)
      else
        let lr := dlLoop maxRetries events 0
        match lr.1 with
        | .done n =>
          (.ok path, { st1 with fs := fsWrite st1.fs path n },
            pre ++ lr.2 ++ [Effect.fileWrite path n])
        | o => (.failedLoop o, st1, pre ++ lr.2)

/-! ## Size-adaptive compressor (`compress_video`, lines 288-381) -/

/-- Result of `compress_video`: the path it returns, and the target bitrate
computed at line 336, when execution reached that computation. -/
structure CompressResult where
  resultPath : String
  targetBitrate : Option ℤ
deriving DecidableEq, Repr

/-- The duration used by `compress_video`: `h * 3600 + m * 60 + s` when the
regex `Duration: (\d{2}):(\d{2}):(\d{2})` matched the probe output (lines
326-333), else the fixed default 120 seconds (line 329). -/
def durationSeconds : Option (Nat × Nat × Nat) → Nat
  | some (h, m, s) => h * 3600 + m * 60 + s
  | none => 120

/-- `compress_video` (lines 288-381), abstracted over the subprocess
environment: `ffmpegAvailable` is whether `ffmpeg -version` succeeds,
`duration` the parsed probe output, `encodeRc` the compression run's exit
code and `encodeOutBytes` the size of the output file the run left behind
(`none` if it wrote nothing).  Mirrors the source order: set the resume
status to `'compressing'` and persist it (line 293, `KeyError` → `none`);
reuse a cached compressed artifact larger than 1 MiB (lines 299-303); fall
back to the input on a missing tool (line 306, caught at 375); read the input
size (a vanished input raises `FileNotFoundError`, also caught at 375); skip
inputs under 10 MB (line 313); compute the target bitrate
`int((target_size_mb * 8 * 1024 * 1024) / duration_seconds)` with
`target_size_mb = max(5, input_size * 0.5)` — a zero duration raises
`ZeroDivisionError`, caught at 378; then validate the encode result (lines
355-373).  Sizes in MB and the `0.9` check are modelled over `ℚ`. -/
def compress_video (inputPath rid : String) (ffmpegAvailable : Bool)
    (duration : Option (Nat × Nat × Nat)) (encodeRc : Int) (encodeOutBytes : Option Nat)
    (st : SysState) : Option (CompressResult × SysState × List Effect) :=
  match rdLookup st.resumeData rid with
  | none => none
  | some rec0 =>
    let rec1 := { rec0 with status := Stage.compressing }
    let st1 : SysState := { st with resumeData := rdInsert st.resumeData rid rec1 }
    let effs := [Effect.resumeSet rid rec1, Effect.persistResume]
    let outP := compPath rid
    let cachedOk : Bool :=
      match fsLookup st1.fs outP with
      | some c => decide (1048576 < c)
      | none => false
    if cachedOk then some (⟨outP, none⟩, st1, effs)
    else if ffmpegAvailable = false then some (⟨inputPath, none⟩, st1, effs)
    else
      match fsLookup st1.fs inputPath with
      | none => some (⟨inputPath, none⟩, st1, effs)
      | some inBytes =>
        let inputMB : ℚ := (inBytes : ℚ) / 1048576
        if inputMB < 10 then some (⟨inputPath, none⟩, st1, effs)
        else
          let secs := durationSeconds duration
          if secs = 0 then some (⟨inputPath, none⟩, st1, effs)
          else
            let targetMB : ℚ := max 5 (inputMB * (1 / 2))
            let bitrate : ℤ := ⌊targetMB * 8 * 1024 * 1024 / (secs : ℚ)⌋
            let fs1 :=
              match encodeOutBytes with
              | some n => fsWrite st1.fs outP n
              | none => st1.fs
            let st2 : SysState := { st1 with fs := fs1 }
            if encodeRc ≠ 0 then some (⟨inputPath, some bitrate⟩, st2, effs)
            else
              match fsLookup fs1 outP with
              | none => some (⟨inputPath, some bitrate⟩, st2, effs)
              | some outBytes =>
                let outMB : ℚ := (outBytes : ℚ) / 1048576
                if inputMB * (9 / 10) < outMB then some (⟨inputPath, some bitrate⟩, st2, effs)
                else some (⟨outP, some bitrate⟩, st2, effs)

/-! ## Pipeline orchestrator (`process_single_recipe`, lines 578-647) -/

/-- `get_recipe_by_id` (lines 192-197): first catalog entry whose id matches. -/
def get_recipe_by_id (recipes : List Recipe) (rid : String) : Option Recipe :=
  recipes.find? (fun r => r.id == rid)

/-- The in-progress test of `get_next_recipe` (line 168): the record's status
is `'downloading'`, `'compressing'` or `'uploading'`. -/
def statusInProgress (r : ResumeRecord) : Bool :=
  r.status == Stage.downloading || r.status == Stage.compressing || r.status == Stage.uploading

/-- Sort key of line 180: `int(r.get('id', 0))`.  The source raises
`ValueError` on a non-numeric id; the model totalises with 0. -/
def recipeSortKey (r : Recipe) : Nat :=
  r.id.toNat?.getD 0

/-- `get_next_recipe` (lines 156-190): filter out used recipes; prefer the
first resume record in a non-terminal stage when its recipe is still
available; otherwise sort the available recipes by numeric id and take the
first, except that with a 20% chance (`randHit`) when more than 10 recipes
remain, a random one of the first 10 (index `randIdx`) is taken instead. -/
def get_next_recipe (recipes : List Recipe) (used : List String)
    (resume : List (String × ResumeRecord)) (randHit : Bool) (randIdx : Nat) :
    Option Recipe :=
  let available := recipes.filter (fun r => ¬ used.contains r.id)
  if available.isEmpty then none
  else
    let resumeRecipeId : Option String :=
      (resume.find? (fun p => statusInProgress p.2)).map (fun p => p.1)
    let resumed : Option Recipe :=
      match resumeRecipeId with
      | some rrid => available.find? (fun r => r.id == rrid)
      | none => none
    match resumed with
    | some r => some r
    | none =>
      let sorted := available.mergeSort (fun a b => recipeSortKey a ≤ recipeSortKey b)
      match sorted with
      | [] => none
      | n :: _ =>
        if 10 < available.length ∧ randHit then some ((sorted.take 10).getD (randIdx % 10) n)
        else some n

/-- `cleanup` helper: `if os.path.exists(path): os.remove(path)`. -/
def removeIfExists (st : SysState) (p : String) : SysState × List Effect :=
  match fsLookup st.fs p with
  | some _ => ({ st with fs := fsErase st.fs p }, [Effect.fileDelete p])
  | none => (st, [])

/-- `cleanup` (lines 565-576): delete the original and compressed artifacts
of the recipe when they exist. -/
def cleanup (rid : String) (st : SysState) : SysState × List Effect :=
  let a := removeIfExists st (origPath rid)
  let b := removeIfExists a.1 (compPath rid)
  (b.1, a.2 ++ b.2)

/-- The environment of one `process_single_recipe` run: wall-clock string,
the scripted downloader and uploader events, the compressor's subprocess
environment, the retry bounds (the source defaults are 5 and 15) and the
random draws of `get_next_recipe`. -/
structure PipelineEnv where
  now : String
  dlEvents : List DlEvent
  dlMaxRetries : Nat
  ffmpegAvailable : Bool
  duration : Option (Nat × Nat × Nat)
  encodeRc : Int
  encodeOutBytes : Option Nat
  upEvents : List ChunkEvent
  upMaxRetries : Nat
  randHit : Bool
  randIdx : Nat
deriving Repr

/-- The per-recipe pipeline body of `process_single_recipe` (lines 610-643):
if the resume record shows `'uploading'` with a recorded, non-empty,
still-existing `video_path`, skip straight to the uploader with that path;
otherwise download then compress; finally upload, and clean up the local
artifacts only when the upload returned a URL.  Any raised exception is
caught at line 645 and turned into `None`.  Also returns the trace of stage
invocations. -/
def runPipeline (r : Recipe) (env : PipelineEnv) (st : SysState) :
    Option String × SysState × List Effect × List StageCall :=
  let rid := r.id
  let tvp : Option String :=
    match rdLookup st.resumeData rid with
    | some rec =>
      if rec.status = Stage.uploading then
        match rec.videoPath with
        | some vp => if vp ≠ "" ∧ (fsLookup st.fs vp).isSome then some vp else none
        | none => none
      else none
    | none => none
  match tvp with
  | some vp =>
    let u := upload_to_youtube rid vp env.upEvents env.upMaxRetries st
    match u.1 with
    | .ok url =>
      let c := cleanup rid u.2.1
      (some url, c.1, u.2.2 ++ c.2, [StageCall.upload vp rid])
    | _ => (none, u.2.1, u.2.2, [StageCall.upload vp rid])
  | none =>
    let d := download_video r env.now env.dlEvents env.dlMaxRetries st
    match d.1 with
    | .ok p1 =>
      match compress_video p1 rid env.ffmpegAvailable env.duration env.encodeRc
          env.encodeOutBytes d.2.1 with
      | none => (none, d.2.1, d.2.2, [StageCall.download rid, StageCall.compress p1 rid])
      | some (cres, st2, ceffs) =>
        let u := upload_to_youtube rid cres.resultPath env.upEvents env.upMaxRetries st2
        let calls := [StageCall.download rid, StageCall.compress p1 rid,
          StageCall.upload cres.resultPath rid]
        match u.1 with
        | .ok url =>
          let c := cleanup rid u.2.1
          (some url, c.1, d.2.2 ++ ceffs ++ u.2.2 ++ c.2, calls)
        | _ => (none, u.2.1, d.2.2 ++ ceffs ++ u.2.2, calls)
    | _ => (none, d.2.1, d.2.2, [StageCall.download rid])

/-- `process_single_recipe` (lines 578-647).  With an explicit `recipe_id`:
look the recipe up (`None` when absent) and refuse recipes already in
`used_recipes` (lines 594-603); without one, delegate selection to
`get_next_recipe`.  The selected recipe then runs through `runPipeline`.
The catalog is taken as already loaded (`load_recipes` only parses JSON). -/
def process_single_recipe (recipes : List Recipe) (requestedId : Option String)
    (env : PipelineEnv) (st : SysState) :
    Option String × SysState × List Effect × List StageCall :=
  match requestedId with
  | some rid =>
    match get_recipe_by_id recipes rid with
    | none => (none, st, [], [])
    | some r =>
      if st.usedRecipes.contains r.id then (none, st, [], [])
      else runPipeline r env st
  | none =>
    match get_next_recipe recipes st.usedRecipes st.resumeData env.randHit env.randIdx with
    | none => (none, st, [], [])
    | some r => runPipeline r env st

/-! ## Store lemmas -/

theorem find?_key_map_replace {β : Type} (m : List (String × β)) (k : String) (v : β)
    (h : (List.find? (fun p => p.1 == k) m).isSome) :
    List.find? (fun p => p.1 == k) (m.map (fun p => if p.1 == k then (k, v) else p))
      = some (k, v) := by
  induction m with
  | nil => simp at h
  | cons p m ih =>
    simp only [List.map_cons]
    by_cases hp : p.1 = k
    · rw [if_pos (show (p.1 == k) = true by simpa using hp)]
      exact List.find?_cons_of_pos _ (by simp)
    · rw [if_neg (show ¬ (p.1 == k) = true by simpa using hp)]
      have hneg : ¬ ((fun p : String × β => p.1 == k) p) = true := by simpa using hp
      rw [List.find?_cons_of_neg (p := fun p : String × β => p.1 == k) _ hneg]
      rw [List.find?_cons_of_neg (p := fun p : String × β => p.1 == k) _ hneg] at h
      exact ih h

theorem find?_key_map_replace_ne {β : Type} (m : List (String × β)) (k q : String) (v : β)
    (hqk : q ≠ k) :
    List.find? (fun p => p.1 == q) (m.map (fun p => if p.1 == k then (k, v) else p))
      = List.find? (fun p => p.1 == q) m := by
  induction m with
  | nil => simp
  | cons p m ih =>
    simp only [List.map_cons]
    by_cases hp : p.1 = k
    · rw [if_pos (show (p.1 == k) = true by simpa using hp)]
      have h1 : ¬ ((fun p : String × β => p.1 == q) (k, v)) = true := by
        simpa using Ne.symm hqk
      have h2 : ¬ ((fun p : String × β => p.1 == q) p) = true := by
        simpa [hp] using Ne.symm hqk
      rw [List.find?_cons_of_neg (p := fun p : String × β => p.1 == q) _ h1,
        List.find?_cons_of_neg (p := fun p : String × β => p.1 == q) _ h2]
      exact ih
    · rw [if_neg (show ¬ (p.1 == k) = true by simpa using hp)]
      by_cases hq : p.1 = q
      · have hpos : ((fun p : String × β => p.1 == q) p) = true := by simpa using hq
        rw [List.find?_cons_of_pos (p := fun p : String × β => p.1 == q) _ hpos,
          List.find?_cons_of_pos (p := fun p : String × β => p.1 == q) _ hpos]
      · have hneg : ¬ ((fun p : String × β => p.1 == q) p) = true := by simpa using hq
        rw [List.find?_cons_of_neg (p := fun p : String × β => p.1 == q) _ hneg,
          List.find?_cons_of_neg (p := fun p : String × β => p.1 == q) _ hneg]
        exact ih

theorem find?_key_none_of_lookup_none {β : Type} (m : List (String × β)) (k : String)
    (h : ¬ ((List.find? (fun p => p.1 == k) m).map (fun p => p.2)).isSome = true) :
    List.find? (fun p => p.1 == k) m = none := by
  cases hf : List.find? (fun p => p.1 == k) m with
  | none => rfl
  | some p => exact absurd (by simp [hf]) h

theorem rdLookup_rdInsert_self (m : List (String × ResumeRecord)) (k : String)
    (v : ResumeRecord) : rdLookup (rdInsert m k v) k = some v := by
  unfold rdInsert
  by_cases hm : (rdLookup m k).isSome
  · rw [if_pos hm]
    unfold rdLookup at hm ⊢
    rw [find?_key_map_replace m k v (by
      cases hf : List.find? (fun p => p.1 == k) m with
      | none => rw [hf] at hm; simp at hm
      | some p => simp [hf])]
    rfl
  · rw [if_neg hm]
    unfold rdLookup at hm ⊢
    rw [List.find?_append, find?_key_none_of_lookup_none m k hm]
    simp

theorem rdLookup_rdInsert_ne (m : List (String × ResumeRecord)) (k q : String)
    (v : ResumeRecord) (hqk : q ≠ k) : rdLookup (rdInsert m k v) q = rdLookup m q := by
  unfold rdInsert
  by_cases hm : (rdLookup m k).isSome
  · rw [if_pos hm]
    unfold rdLookup
    rw [find?_key_map_replace_ne m k q v hqk]
  · rw [if_neg hm]
    unfold rdLookup
    rw [List.find?_append]
    have hnone : List.find? (fun p => p.1 == q) [(k, v)] = none := by
      simp [show k ≠ q from Ne.symm hqk]
    rw [hnone]
    simp

theorem rdLookup_rdErase_self (m : List (String × ResumeRecord)) (k : String) :
    rdLookup (rdErase m k) k = none := by
  unfold rdLookup rdErase
  rw [List.find?_eq_none.2]
  · rfl
  · intro x hx
    have := List.of_mem_filter hx
    simpa using this

theorem fsLookup_fsWrite_self (fs : List (String × Nat)) (p : String) (n : Nat) :
    fsLookup (fsWrite fs p n) p = some n := by
  unfold fsWrite
  by_cases hm : (fsLookup fs p).isSome
  · rw [if_pos hm]
    unfold fsLookup at hm ⊢
    rw [find?_key_map_replace fs p n (by
      cases hf : List.find? (fun e => e.1 == p) fs with
      | none => rw [hf] at hm; simp at hm
      | some e => simp [hf])]
    rfl
  · rw [if_neg hm]
    unfold fsLookup at hm ⊢
    rw [List.find?_append, find?_key_none_of_lookup_none fs p hm]
    simp

theorem fsLookup_fsWrite_ne (fs : List (String × Nat)) (p q : String) (n : Nat)
    (h : q ≠ p) : fsLookup (fsWrite fs p n) q = fsLookup fs q := by
  unfold fsWrite
  by_cases hm : (fsLookup fs p).isSome
  · rw [if_pos hm]
    unfold fsLookup
    rw [find?_key_map_replace_ne fs p q n h]
  · rw [if_neg hm]
    unfold fsLookup
    rw [List.find?_append]
    have hnone : List.find? (fun e => e.1 == q) [(p, n)] = none := by
      simp [show p ≠ q from Ne.symm h]
    rw [hnone]
    simp

/-! ## Uploader lemmas -/

theorem uploadLoop_effects_sleep (maxR : Nat) (es : List ChunkEvent) :
    ∀ ls, ∀ e ∈ (uploadLoop maxR es ls).2.2, ∃ d, e = Effect.sleep d := by
  induction es with
  | nil => intro ls e he; simp [uploadLoop] at he
  | cons ev rest ih =>
    intro ls e he
    by_cases hm : maxR ≤ ls.retryCount
    · simp [uploadLoop, hm] at he
    · cases ev with
      | complete vid => simp [uploadLoop, hm] at he
      | progress pct =>
        by_cases hpl : pct = ls.lastProgress
        · by_cases hs : 5 < ls.stalledCount + 1
          · by_cases hmr : maxR ≤ ls.retryCount + 1
            · simp [uploadLoop, hm, hpl, hs, hmr] at he
              exact ⟨_, he⟩
            · simp [uploadLoop, hm, hpl, hs, hmr] at he
              rcases he with he | he
              · exact ⟨_, he⟩
              · exact ih _ e he
          · simp [uploadLoop, hm, hpl, hs] at he
            exact ih _ e he
        · simp [uploadLoop, hm, hpl] at he
          exact ih _ e he
      | timeout =>
        by_cases hmr : maxR ≤ ls.retryCount + 1
        · simp [uploadLoop, hm, hmr] at he
          exact ⟨_, he⟩
        · simp [uploadLoop, hm, hmr] at he
          rcases he with he | he
          · exact ⟨_, he⟩
          · exact ih _ e he
      | httpError s =>
        by_cases hse : s ∈ serverErrors
        · by_cases hmr : maxR ≤ ls.retryCount + 1
          · simp [uploadLoop, hm, hse, hmr] at he
            exact ⟨_, he⟩
          · simp [uploadLoop, hm, hse, hmr] at he
            rcases he with he | he
            · exact ⟨_, he⟩
            · exact ih _ e he
        · simp [uploadLoop, hm, hse] at he
      | otherError =>
        by_cases hmr : maxR ≤ ls.retryCount + 1
        · simp [uploadLoop, hm, hmr] at he
          exact ⟨_, he⟩
        · simp [uploadLoop, hm, hmr] at he
          rcases he with he | he
          · exact ⟨_, he⟩
          · exact ih _ e he

theorem upload_ok_shape (rid vp : String) (events : List ChunkEvent) (maxR : Nat)
    (st : SysState) (url : String) (st2 : SysState) (effs : List Effect)
    (h : upload_to_youtube rid vp events maxR st = (.ok url, st2, effs)) :
    st2.usedRecipes.contains rid = true ∧ rdLookup st2.resumeData rid = none ∧
    ∃ pre, effs = pre ++ [Effect.ledgerAdd rid, Effect.persistLedger,
        Effect.resumeDel rid, Effect.persistResume]
      ∧ (∀ i, Effect.ledgerAdd i ∉ pre) := by
  unfold upload_to_youtube at h
  cases hrec : rdLookup st.resumeData rid with
  | none => rw [hrec] at h; simp at h
  | some rec0 =>
    rw [hrec] at h
    simp only at h
    cases hout : (uploadLoop maxR events ⟨0, 0, 0⟩).1 with
    | completed vid =>
      rw [hout] at h
      simp only [rdLookup_rdInsert_self, Option.isSome_some, if_true] at h
      rw [Prod.mk.injEq, Prod.mk.injEq] at h
      obtain ⟨-, hst2, heffs⟩ := h
      refine ⟨?_, ?_, ?_⟩
      · rw [← hst2]
        by_cases hc : rid ∈ st.usedRecipes <;> simp [hc]
      · rw [← hst2]
        exact rdLookup_rdErase_self _ _
      · refine ⟨[Effect.resumeSet rid
            { rec0 with status := Stage.uploading, videoPath := some vp },
            Effect.persistResume] ++ (uploadLoop maxR events ⟨0, 0, 0⟩).2.2, ?_, ?_⟩
        · rw [← heffs]
          simp
        · intro i hi
          rcases List.mem_append.1 hi with hi | hi
          · simp at hi
          · obtain ⟨d, hd⟩ := uploadLoop_effects_sleep maxR events _ _ hi
            simp at hd
    | exhausted => rw [hout] at h; simp at h
    | raisedTimeout => rw [hout] at h; simp at h
    | raisedHttp s => rw [hout] at h; simp at h
    | raisedOther => rw [hout] at h; simp at h
    | noMoreEvents => rw [hout] at h; simp at h

theorem upload_not_ok_frame (rid vp : String) (events : List ChunkEvent) (maxR : Nat)
    (st : SysState) (out : UploadOutcome) (st2 : SysState) (effs : List Effect)
    (h : upload_to_youtube rid vp events maxR st = (out, st2, effs))
    (hno : ∀ url, out ≠ .ok url) :
    st2.usedRecipes = st.usedRecipes ∧ (∀ i, Effect.ledgerAdd i ∉ effs) := by
  unfold upload_to_youtube at h
  cases hrec : rdLookup st.resumeData rid with
  | none =>
    rw [hrec] at h
    rw [Prod.mk.injEq, Prod.mk.injEq] at h
    obtain ⟨-, hst2, heffs⟩ := h
    constructor
    · rw [← hst2]
    · rw [← heffs]; simp
  | some rec0 =>
    rw [hrec] at h
    simp only at h
    cases hout : (uploadLoop maxR events ⟨0, 0, 0⟩).1 with
    | completed vid =>
      rw [hout] at h
      simp only [rdLookup_rdInsert_self, Option.isSome_some, if_true] at h
      rw [Prod.mk.injEq, Prod.mk.injEq] at h
      exact absurd h.1.symm (hno _)
    | exhausted =>
      rw [hout] at h
      rw [Prod.mk.injEq, Prod.mk.injEq] at h
      obtain ⟨-, hst2, heffs⟩ := h
      refine ⟨by rw [← hst2], ?_⟩
      intro i hi
      rw [← heffs] at hi
      rcases List.mem_append.1 hi with hi | hi
      · simp at hi
      · obtain ⟨d, hd⟩ := uploadLoop_effects_sleep maxR events _ _ hi
        simp at hd
    | raisedTimeout =>
      rw [hout] at h
      rw [Prod.mk.injEq, Prod.mk.injEq] at h
      obtain ⟨-, hst2, heffs⟩ := h
      refine ⟨by rw [← hst2], ?_⟩
      intro i hi
      rw [← heffs] at hi
      rcases List.mem_append.1 hi with hi | hi
      · simp at hi
      · obtain ⟨d, hd⟩ := uploadLoop_effects_sleep maxR events _ _ hi
        simp at hd
    | raisedHttp s =>
      rw [hout] at h
      rw [Prod.mk.injEq, Prod.mk.injEq] at h
      obtain ⟨-, hst2, heffs⟩ := h
      refine ⟨by rw [← hst2], ?_⟩
      intro i hi
      rw [← heffs] at hi
      rcases List.mem_append.1 hi with hi | hi
      · simp at hi
      · obtain ⟨d, hd⟩ := uploadLoop_effects_sleep maxR events _ _ hi
        simp at hd
    | raisedOther =>
      rw [hout] at h
      rw [Prod.mk.injEq, Prod.mk.injEq] at h
      obtain ⟨-, hst2, heffs⟩ := h
      refine ⟨by rw [← hst2], ?_⟩
      intro i hi
      rw [← heffs] at hi
      rcases List.mem_append.1 hi with hi | hi
      · simp at hi
      · obtain ⟨d, hd⟩ := uploadLoop_effects_sleep maxR events _ _ hi
        simp at hd
    | noMoreEvents =>
      rw [hout] at h
      rw [Prod.mk.injEq, Prod.mk.injEq] at h
      obtain ⟨-, hst2, heffs⟩ := h
      refine ⟨by rw [← hst2], ?_⟩
      intro i hi
      rw [← heffs] at hi
      rcases List.mem_append.1 hi with hi | hi
      · simp at hi
      · obtain ⟨d, hd⟩ := uploadLoop_effects_sleep maxR events _ _ hi
        simp at hd

theorem upload_failed_state (rid vp : String) (events : List ChunkEvent) (maxR : Nat)
    (st : SysState) (rec : ResumeRecord) (o : LoopOutcome) (st2 : SysState)
    (effs : List Effect)
    (hrec : rdLookup st.resumeData rid = some rec)
    (h : upload_to_youtube rid vp events maxR st = (.failed o, st2, effs)) :
    st2 = { st with resumeData := rdInsert st.resumeData rid ({ rec with status := Stage.uploading, videoPath := some vp }) } := by
  unfold upload_to_youtube at h
  rw [hrec] at h
  simp only at h
  cases hout : (uploadLoop maxR events ⟨0, 0, 0⟩).1 with
  | completed vid =>
    rw [hout] at h
    simp only [rdLookup_rdInsert_self, Option.isSome_some, if_true] at h
    simp at h
  | exhausted => rw [hout] at h; rw [Prod.mk.injEq, Prod.mk.injEq] at h; exact h.2.1.symm
  | raisedTimeout => rw [hout] at h; rw [Prod.mk.injEq, Prod.mk.injEq] at h; exact h.2.1.symm
  | raisedHttp s => rw [hout] at h; rw [Prod.mk.injEq, Prod.mk.injEq] at h; exact h.2.1.symm
  | raisedOther => rw [hout] at h; rw [Prod.mk.injEq, Prod.mk.injEq] at h; exact h.2.1.symm
  | noMoreEvents => rw [hout] at h; rw [Prod.mk.injEq, Prod.mk.injEq] at h; exact h.2.1.symm

theorem cleanup_preserves (rid : String) (s : SysState) :
    (cleanup rid s).1.usedRecipes = s.usedRecipes ∧
    (cleanup rid s).1.resumeData = s.resumeData := by
  simp only [cleanup, removeIfExists]
  split <;> split <;> simp

theorem runPipeline_ok_state (r : Recipe) (env : PipelineEnv) (st : SysState)
    (url : String) (st2 : SysState) (effs : List Effect) (calls : List StageCall)
    (h : runPipeline r env st = (some url, st2, effs, calls)) :
    st2.usedRecipes.contains r.id = true ∧ rdLookup st2.resumeData r.id = none := by
  unfold runPipeline at h
  simp only at h
  split at h
  · split at h
    · rename_i vp htvp xout url' hu
      have hufull : upload_to_youtube r.id vp env.upEvents env.upMaxRetries st
          = (.ok url', (upload_to_youtube r.id vp env.upEvents env.upMaxRetries st).2.1,
             (upload_to_youtube r.id vp env.upEvents env.upMaxRetries st).2.2) := by
        rw [← hu]
      have hs := upload_ok_shape _ _ _ _ _ _ _ _ hufull
      rw [Prod.mk.injEq, Prod.mk.injEq, Prod.mk.injEq] at h
      obtain ⟨-, hst2, -, -⟩ := h
      have hcp := cleanup_preserves r.id
          (upload_to_youtube r.id vp env.upEvents env.upMaxRetries st).2.1
      constructor
      · rw [← hst2, hcp.1]; exact hs.1
      · rw [← hst2, hcp.2]; exact hs.2.1
    · simp at h
  · split at h
    · split at h
      · simp at h
      · split at h
        · rename_i cres st3 ceffs hcomp xout url' hu
          have hufull : upload_to_youtube r.id cres.resultPath env.upEvents env.upMaxRetries st3
              = (.ok url',
                 (upload_to_youtube r.id cres.resultPath env.upEvents env.upMaxRetries st3).2.1,
                 (upload_to_youtube r.id cres.resultPath env.upEvents env.upMaxRetries st3).2.2) := by
            rw [← hu]
          have hs := upload_ok_shape _ _ _ _ _ _ _ _ hufull
          rw [Prod.mk.injEq, Prod.mk.injEq, Prod.mk.injEq] at h
          obtain ⟨-, hst2, -, -⟩ := h
          have hcp := cleanup_preserves r.id
              (upload_to_youtube r.id cres.resultPath env.upEvents env.upMaxRetries st3).2.1
          constructor
          · rw [← hst2, hcp.1]; exact hs.1
          · rw [← hst2, hcp.2]; exact hs.2.1
        · simp at h
    · simp at h

/-! ## Claim theorems -/

/-- C1: an item's identifier enters `used_recipes` only after `next_chunk`
returns a confirmed response; the ledger is dumped to disk immediately after
that single mutation; in the same success path the resume record is removed
and persisted; and after a confirmed upload (also through the orchestrator)
the ledger contains the identifier while the resume mapping does not.  On any
failure the ledger is untouched and no ledger mutation is traced. -/
theorem claim_C1_ledger_commit :
    (∀ rid vp events maxR st url st2 effs,
        upload_to_youtube rid vp events maxR st = (.ok url, st2, effs) →
        st2.usedRecipes.contains rid = true ∧ rdLookup st2.resumeData rid = none ∧
        ∃ pre, effs = pre ++ [Effect.ledgerAdd rid, Effect.persistLedger,
            Effect.resumeDel rid, Effect.persistResume]
          ∧ (∀ i, Effect.ledgerAdd i ∉ pre))
    ∧ (∀ rid vp events maxR st out st2 effs,
        upload_to_youtube rid vp events maxR st = (out, st2, effs) →
        (∀ url, out ≠ .ok url) →
        st2.usedRecipes = st.usedRecipes ∧ (∀ i, Effect.ledgerAdd i ∉ effs))
    ∧ (∀ r env st url st2 effs calls,
        runPipeline r env st = (some url, st2, effs, calls) →
        st2.usedRecipes.contains r.id = true ∧ rdLookup st2.resumeData r.id = none) := by
  refine ⟨?_, ?_, ?_⟩
  · intro rid vp events maxR st url st2 effs h
    exact upload_ok_shape rid vp events maxR st url st2 effs h
  · intro rid vp events maxR st out st2 effs h hno
    exact upload_not_ok_frame rid vp events maxR st out st2 effs h hno
  · intro r env st url st2 effs calls h
    exact runPipeline_ok_state r env st url st2 effs calls h

/-- Witness for C1: a concrete one-chunk successful upload of recipe `"7"`,
checked against the first conjunct of the theorem. -/
theorem claim_C1_witness :
    (SysState.mk [("7")] [] []).usedRecipes.contains ("7") = true
    ∧ rdLookup (SysState.mk [("7")] [] []).resumeData ("7") = none
    ∧ ∃ pre, ([Effect.resumeSet ("7") ⟨Stage.uploading, ("t"), ("d"), some ("p")⟩,
        Effect.persistResume, Effect.ledgerAdd ("7"), Effect.persistLedger,
        Effect.resumeDel ("7"), Effect.persistResume] : List Effect)
        = pre ++ [Effect.ledgerAdd ("7"), Effect.persistLedger,
            Effect.resumeDel ("7"), Effect.persistResume]
        ∧ (∀ i, Effect.ledgerAdd i ∉ pre) :=
  claim_C1_ledger_commit.1 ("7") ("p") [ChunkEvent.complete ("vid")] 15
    ⟨[], [(("7"), ⟨Stage.uploading, ("t"), ("d"), some ("p")⟩)], []⟩
    ("https://www.youtube.com/watch?v=vid") ⟨[("7")], [], []⟩ _ (by decide)

/-- C2: an upload attempt failing with an `HttpError` whose status is not in
`[500, 502, 503, 504]` re-raises immediately: no further event is consumed,
the loop variables (in particular `retry_count`) are unchanged, no sleep is
traced; the identifier is not added to the ledger and the resume record still
shows stage `'uploading'` with the attempted path. -/
theorem claim_C2_client_error_no_retry (rid vp : String) (rest events : List ChunkEvent)
    (s maxR : Nat) (ls : LoopSt) (st : SysState) (rec : ResumeRecord)
    (hs : serverErrors.contains s = false) (hrc : ls.retryCount < maxR)
    (hrec : rdLookup st.resumeData rid = some rec)
    (hloop : (uploadLoop maxR events ⟨0, 0, 0⟩).1 = .raisedHttp s) :
    uploadLoop maxR (ChunkEvent.httpError s :: rest) ls = (.raisedHttp s, ls, [])
    ∧ ∃ st2 effs, upload_to_youtube rid vp events maxR st
        = (.failed (.raisedHttp s), st2, effs)
      ∧ st2.usedRecipes = st.usedRecipes
      ∧ rdLookup st2.resumeData rid
          = some ({ rec with status := Stage.uploading, videoPath := some vp }) := by
  have hs' : ¬ s ∈ serverErrors := by simpa using hs
  have hnm : ¬ maxR ≤ ls.retryCount := Nat.not_le.mpr hrc
  constructor
  · simp [uploadLoop, hnm, hs']
  · have hfail : upload_to_youtube rid vp events maxR st
        = (.failed (.raisedHttp s),
           { st with resumeData := rdInsert st.resumeData rid ({ rec with status := Stage.uploading, videoPath := some vp }) },
           [Effect.resumeSet rid ({ rec with status := Stage.uploading, videoPath := some vp }),
             Effect.persistResume] ++ (uploadLoop maxR events ⟨0, 0, 0⟩).2.2) := by
      unfold upload_to_youtube
      rw [hrec]
      simp only
      rw [hloop]
    exact ⟨_, _, hfail, rfl, by rw [rdLookup_rdInsert_self]⟩

/-- Witness for C2: a concrete 403 client error on the first chunk. -/
theorem claim_C2_witness :
    uploadLoop 15 (ChunkEvent.httpError 403 :: []) ⟨0, 0, 0⟩
      = (.raisedHttp 403, ⟨0, 0, 0⟩, [])
    ∧ ∃ st2 effs, upload_to_youtube ("7") ("p") [ChunkEvent.httpError 403] 15
        ⟨[], [(("7"), ⟨Stage.downloading, ("t"), ("d"), none⟩)], []⟩
        = (.failed (.raisedHttp 403), st2, effs)
      ∧ st2.usedRecipes = (SysState.mk [] [(("7"), ⟨Stage.downloading, ("t"), ("d"), none⟩)] []).usedRecipes
      ∧ rdLookup st2.resumeData ("7")
          = some ({ ResumeRecord.mk Stage.downloading ("t") ("d") none with
              status := Stage.uploading, videoPath := some ("p") }) :=
  claim_C2_client_error_no_retry ("7") ("p") [] [ChunkEvent.httpError 403] 403 15
    ⟨0, 0, 0⟩ ⟨[], [(("7"), ⟨Stage.downloading, ("t"), ("d"), none⟩)], []⟩
    ⟨Stage.downloading, ("t"), ("d"), none⟩ (by decide) (by decide) (by decide) (by decide)

/-- C7: retry delays, by error class.  The downloader's timeout delay is
`min(2 ** attempt, 60)`, the uploader's (timeout/stall, server error and
other-error classes all share it) is `min(2 ** attempt, 120)`; both are
non-decreasing in the attempt number; both are bounded by their caps, the
uploader's cap 120 is attained and strictly exceeds the downloader's cap
60 (attained at attempt 6). -/
theorem claim_C7_backoff_delays (a b : Nat) (hab : a ≤ b) :
    downloadBackoffDelay a ≤ downloadBackoffDelay b
    ∧ uploadBackoffDelay a ≤ uploadBackoffDelay b
    ∧ downloadBackoffDelay a = min (2 ^ a) 60
    ∧ uploadBackoffDelay a = min (2 ^ a) 120
    ∧ downloadBackoffDelay a ≤ 60
    ∧ uploadBackoffDelay a ≤ 120
    ∧ downloadBackoffDelay 6 = 60
    ∧ uploadBackoffDelay 7 = 120
    ∧ 60 < 120 := by
  refine ⟨?_, ?_, rfl, rfl, ?_, ?_, by decide, by decide, by decide⟩
  · exact min_le_min (Nat.pow_le_pow_right (by norm_num) hab) le_rfl
  · exact min_le_min (Nat.pow_le_pow_right (by norm_num) hab) le_rfl
  · exact min_le_right _ _
  · exact min_le_right _ _

/-- Witness for C7 at attempts 1 ≤ 2. -/
theorem claim_C7_witness :
    downloadBackoffDelay 1 ≤ downloadBackoffDelay 2
    ∧ uploadBackoffDelay 1 ≤ uploadBackoffDelay 2
    ∧ downloadBackoffDelay 1 = min (2 ^ 1) 60
    ∧ uploadBackoffDelay 1 = min (2 ^ 1) 120
    ∧ downloadBackoffDelay 1 ≤ 60
    ∧ uploadBackoffDelay 1 ≤ 120
    ∧ downloadBackoffDelay 6 = 60
    ∧ uploadBackoffDelay 7 = 120
    ∧ 60 < 120 :=
  claim_C7_backoff_delays 1 2 (by norm_num)

/-- C9 counterexample: five consecutive chunk completions reporting the same
percentage as the last recorded progress do NOT force a retry — the code
raises only when `stalled_count > 5`, i.e. on the sixth such completion.
Here a changed report sets `last_progress := 30`, five consecutive unchanged
reports follow, and the upload simply completes: no sleep is traced,
`retry_count` stays 0 and `stalled_count` ends at 5. -/
theorem claim_C9_counterexample :
    uploadLoop 15 (ChunkEvent.progress 30 :: (List.replicate 5 (ChunkEvent.progress 30)
        ++ [ChunkEvent.complete ("v")])) ⟨0, 0, 0⟩
      = (.completed ("v"), ⟨0, 30, 5⟩, []) := by decide

/-- Helper: one stalled chunk completion below the threshold only increments
`stalled_count`. -/
theorem uploadLoop_progress_same_step (maxR rc lp sc : Nat) (rest : List ChunkEvent)
    (h1 : rc < maxR) (h2 : sc + 1 ≤ 5) :
    uploadLoop maxR (ChunkEvent.progress lp :: rest) ⟨rc, lp, sc⟩
      = uploadLoop maxR rest ⟨rc, lp, sc + 1⟩ := by
  have hnm : ¬ maxR ≤ rc := Nat.not_le.mpr h1
  have hns : ¬ 5 < sc + 1 := Nat.not_lt.mpr h2
  simp [uploadLoop, hnm, hns]

/-- C9 amended: SIX consecutive chunk completions reporting the same progress
percentage as the last recorded one raise the stall into the timeout-backoff
path (one backoff sleep, `retry_count` incremented, retry continues), and a
completion that changes the percentage resets `stalled_count` to zero and
records the new percentage. -/
theorem claim_C9_stall_amended (rc lp sc : Nat) (maxR : Nat) (rest : List ChunkEvent)
    (q : Nat) (hrc : rc + 1 < maxR) (hq : q ≠ lp) :
    uploadLoop maxR (List.replicate 6 (ChunkEvent.progress lp) ++ rest) ⟨rc, lp, 0⟩
      = ((uploadLoop maxR rest ⟨rc + 1, lp, 6⟩).1,
         (uploadLoop maxR rest ⟨rc + 1, lp, 6⟩).2.1,
         Effect.sleep (uploadBackoffDelay (rc + 1))
           :: (uploadLoop maxR rest ⟨rc + 1, lp, 6⟩).2.2)
    ∧ uploadLoop maxR (ChunkEvent.progress q :: rest) ⟨rc, lp, sc⟩
        = uploadLoop maxR rest ⟨rc, q, 0⟩ := by
  have h0 : rc < maxR := Nat.lt_of_succ_lt hrc
  have hnm : ¬ maxR ≤ rc := Nat.not_le.mpr h0
  have hnm1 : ¬ maxR ≤ rc + 1 := Nat.not_le.mpr hrc
  constructor
  · simp only [List.replicate, List.cons_append, List.nil_append]
    rw [uploadLoop_progress_same_step maxR rc lp 0 _ h0 (by norm_num),
      uploadLoop_progress_same_step maxR rc lp 1 _ h0 (by norm_num),
      uploadLoop_progress_same_step maxR rc lp 2 _ h0 (by norm_num),
      uploadLoop_progress_same_step maxR rc lp 3 _ h0 (by norm_num),
      uploadLoop_progress_same_step maxR rc lp 4 _ h0 (by norm_num)]
    simp [uploadLoop, hnm, hnm1]
  · simp [uploadLoop, hnm, hq]

/-- Witness for the amended C9 at a concrete state. -/
theorem claim_C9_witness :
    uploadLoop 15 (List.replicate 6 (ChunkEvent.progress 0) ++ []) ⟨0, 0, 0⟩
      = ((uploadLoop 15 [] ⟨1, 0, 6⟩).1, (uploadLoop 15 [] ⟨1, 0, 6⟩).2.1,
         Effect.sleep (uploadBackoffDelay 1) :: (uploadLoop 15 [] ⟨1, 0, 6⟩).2.2)
    ∧ uploadLoop 15 (ChunkEvent.progress 1 :: []) ⟨0, 0, 0⟩ = uploadLoop 15 [] ⟨0, 1, 0⟩ :=
  claim_C9_stall_amended 0 0 0 15 [] 1 (by norm_num) (by decide)

/-- C10: requesting a recipe whose identifier is already in `used_recipes`
returns `None` without invoking download, compression or upload, and leaves
the ledger, the resume mapping and the local files untouched (the state is
returned unchanged and no effect is traced). -/
theorem claim_C10_used_requested_noop (recipes : List Recipe) (rid : String)
    (env : PipelineEnv) (st : SysState)
    (hused : st.usedRecipes.contains rid = true) :
    process_single_recipe recipes (some rid) env st = (none, st, [], []) := by
  unfold process_single_recipe
  cases hfind : get_recipe_by_id recipes rid with
  | none => simp [hfind]
  | some r =>
    have hp := List.find?_some (show List.find? (fun r => r.id == rid) recipes = some r by
      simpa [get_recipe_by_id] using hfind)
    have hr : r.id = rid := by simpa using hp
    have hmem : rid ∈ st.usedRecipes := by simpa using hused
    simp [hfind, hr, hmem]

/-- Witness for C10: recipe `"7"` is in the ledger; the requested run is a
no-op. -/
theorem claim_C10_witness :
    process_single_recipe [⟨("7"), ("Dish"), ("u")⟩] (some ("7"))
      ⟨("t"), [], 5, false, none, 0, none, [], 15, false, 0⟩
      ⟨[("7")], [], []⟩
      = (none, ⟨[("7")], [], []⟩, [], []) :=
  claim_C10_used_requested_noop [⟨("7"), ("Dish"), ("u")⟩] ("7")
    ⟨("t"), [], 5, false, none, 0, none, [], 15, false, 0⟩
    ⟨[("7")], [], []⟩ (by decide)

/-! ## Tag trimming (C4) -/

theorem trimTagsAux_tailOnly (fuel : Nat) :
    ∀ t : List String, ∃ rest, trimTagsAux fuel t ++ rest = t := by
  induction fuel with
  | zero => intro t; exact ⟨[], by simp [trimTagsAux]⟩
  | succ fuel ih =>
    intro t
    by_cases hc : 490 < totalTagsLength t ∧ 5 < t.length
    · have hne : t ≠ [] := by
        intro hznil
        rw [hznil] at hc
        simp at hc
      obtain ⟨r1, hr1⟩ := ih t.dropLast
      refine ⟨r1 ++ [t.getLast hne], ?_⟩
      simp only [trimTagsAux, if_pos hc]
      rw [← List.append_assoc, hr1, List.dropLast_append_getLast hne]
    · exact ⟨[], by simp [trimTagsAux, hc]⟩

theorem trimTagsAux_length (fuel : Nat) :
    ∀ t : List String, 5 ≤ t.length → 5 ≤ (trimTagsAux fuel t).length := by
  induction fuel with
  | zero => intro t h; simpa [trimTagsAux] using h
  | succ fuel ih =>
    intro t h
    by_cases hc : 490 < totalTagsLength t ∧ 5 < t.length
    · simp only [trimTagsAux, if_pos hc]
      apply ih
      rw [List.length_dropLast]
      omega
    · simpa [trimTagsAux, hc] using h

theorem trimTagsAux_total (fuel : Nat) :
    ∀ t : List String, t.length ≤ fuel + 5 →
    totalTagsLength (trimTagsAux fuel t) ≤ 490 ∨ (trimTagsAux fuel t).length ≤ 5 := by
  induction fuel with
  | zero =>
    intro t h
    right
    simpa [trimTagsAux] using h
  | succ fuel ih =>
    intro t h
    by_cases hc : 490 < totalTagsLength t ∧ 5 < t.length
    · simp only [trimTagsAux, if_pos hc]
      apply ih
      rw [List.length_dropLast]
      omega
    · simp only [trimTagsAux, if_neg hc]
      rcases not_and_or.1 hc with hc | hc
      · exact Or.inl (not_lt.1 hc)
      · exact Or.inr (not_lt.1 hc)

/-- C4 (amended): on a tag list of at least five tags whose cumulative length
exceeds the 490-character ceiling, the trimming loop removes tags only from
the tail (the result is a prefix of the input), retains at least five tags,
and the result is within the ceiling unless it was pinned at exactly five
tags (in which case it may still exceed the ceiling). -/
theorem claim_C4_trim_amended (t : List String) (h5 : 5 ≤ t.length)
    (hover : 490 < totalTagsLength t) :
    (∃ rest, trimTags t ++ rest = t)
    ∧ 5 ≤ (trimTags t).length
    ∧ (totalTagsLength (trimTags t) ≤ 490 ∨ (trimTags t).length = 5) := by
  refine ⟨trimTagsAux_tailOnly _ _, trimTagsAux_length _ _ h5, ?_⟩
  rcases trimTagsAux_total t.length t (by omega) with h | h
  · exact Or.inl h
  · exact Or.inr (le_antisymm h (trimTagsAux_length _ _ h5))

/-- A 99-character tag. -/
def overlongTag : String :=
  "aaaaaaaaaaaaaaaaaaaaaaaaaaaaaaaaaaaaaaaaaaaaaaaaaaaaaaaaaaaaaaaaaaaaaaaaaaaaaaaaaaaaaaaaaaaaaaaaaaa"

/-- C4 counterexample: six 99-character tags have cumulative length 594 > 490
and more than five tags, so the claim requires the trimmed result to be
within the ceiling while keeping at least five tags; the loop pops a single
tag and stops at the five-tag minimum with cumulative length 495, which still
exceeds the 490 ceiling. -/
theorem claim_C4_counterexample :
    490 < totalTagsLength (List.replicate 6 overlongTag)
    ∧ 5 ≤ (List.replicate 6 overlongTag).length
    ∧ totalTagsLength (trimTags (List.replicate 6 overlongTag)) = 495
    ∧ ¬ totalTagsLength (trimTags (List.replicate 6 overlongTag)) ≤ 490 := by
  decide

/-- Witness for the amended C4 on the same six-tag input. -/
theorem claim_C4_witness :
    (∃ rest, trimTags (List.replicate 6 overlongTag) ++ rest = List.replicate 6 overlongTag)
    ∧ 5 ≤ (trimTags (List.replicate 6 overlongTag)).length
    ∧ (totalTagsLength (trimTags (List.replicate 6 overlongTag)) ≤ 490
        ∨ (trimTags (List.replicate 6 overlongTag)).length = 5) :=
  claim_C4_trim_amended (List.replicate 6 overlongTag) (by decide) (by decide)

/-! ## Download short-circuit (C5) -/

theorem download_video_cached (r : Recipe) (now : String) (events : List DlEvent)
    (maxR : Nat) (st : SysState) (sz : Nat)
    (hc : fsLookup st.fs (origPath r.id) = some sz) (hsz : 1048576 < sz) :
    download_video r now events maxR st
      = (.ok (origPath r.id),
         { st with resumeData := rdInsert st.resumeData r.id ⟨Stage.downloading, now, r.dishName, none⟩ },
         [Effect.resumeSet r.id ⟨Stage.downloading, now, r.dishName, none⟩,
           Effect.persistResume]) := by
  simp [download_video, hc, hsz]

theorem download_video_ok_path (r : Recipe) (now : String) (events : List DlEvent)
    (maxR : Nat) (st : SysState) (p : String) (st2 : SysState) (effs : List Effect)
    (h : download_video r now events maxR st = (.ok p, st2, effs)) : p = origPath r.id := by
  unfold download_video at h
  simp only at h
  split at h
  · rw [Prod.mk.injEq, Prod.mk.injEq] at h
    exact (DlOutcome.ok.inj h.1).symm
  · split at h
    · simp at h
    · split at h
      · simp at h
      · split at h
        · rw [Prod.mk.injEq, Prod.mk.injEq] at h
          exact (DlOutcome.ok.inj h.1).symm
        · simp at h

/-- C5: when the original artifact already exists with size strictly above
1 MiB, `download_video` returns its path immediately, performs no network
interaction and leaves the file system unchanged; consequently a second
invocation after a first one that produced such an artifact performs no
second network transfer and returns the same path. -/
theorem claim_C5_download_short_circuit (r : Recipe) (now : String)
    (events : List DlEvent) (maxR : Nat) (st : SysState) (sz : Nat)
    (hc : fsLookup st.fs (origPath r.id) = some sz) (hsz : 1048576 < sz) :
    (∃ st1, download_video r now events maxR st
        = (.ok (origPath r.id), st1,
           [Effect.resumeSet r.id ⟨Stage.downloading, now, r.dishName, none⟩,
             Effect.persistResume])
      ∧ st1.fs = st.fs
      ∧ Effect.netFetch ∉ (download_video r now events maxR st).2.2)
    ∧ (∀ now₀ events₀ st₀ p st₁ effs₁ m now₂ events₂,
        download_video r now₀ events₀ maxR st₀ = (.ok p, st₁, effs₁) →
        fsLookup st₁.fs p = some m → 1048576 < m →
        ∃ st₃ effs₃, download_video r now₂ events₂ maxR st₁ = (.ok p, st₃, effs₃)
          ∧ Effect.netFetch ∉ effs₃ ∧ st₃.fs = st₁.fs) := by
  constructor
  · refine ⟨_, download_video_cached r now events maxR st sz hc hsz, rfl, ?_⟩
    rw [download_video_cached r now events maxR st sz hc hsz]
    simp
  · intro now₀ events₀ st₀ p st₁ effs₁ m now₂ events₂ h hm hsz2
    have hp := download_video_ok_path _ _ _ _ _ _ _ _ h
    subst hp
    refine ⟨_, _, download_video_cached r now₂ events₂ maxR st₁ m hm hsz2, ?_, rfl⟩
    simp

/-- Witness for C5: artifact `original_7.mp4` of about 2 MB is present, so the
download stage returns it with no fetch. -/
theorem claim_C5_witness :
    ∃ st1, download_video ⟨("7"), ("Dish"), ("u")⟩ ("t") [] 5
        ⟨[], [], [(("temp_videos/original_7.mp4"), 2000000)]⟩
      = (.ok (origPath ("7")), st1,
         [Effect.resumeSet ("7") ⟨Stage.downloading, ("t"), ("Dish"), none⟩,
           Effect.persistResume])
      ∧ st1.fs = (SysState.mk [] [] [(("temp_videos/original_7.mp4"), 2000000)]).fs
      ∧ Effect.netFetch ∉ (download_video ⟨("7"), ("Dish"), ("u")⟩ ("t") [] 5
          ⟨[], [], [(("temp_videos/original_7.mp4"), 2000000)]⟩).2.2 :=
  (claim_C5_download_short_circuit ⟨("7"), ("Dish"), ("u")⟩ ("t") [] 5
    ⟨[], [], [(("temp_videos/original_7.mp4"), 2000000)]⟩ 2000000
    (by decide) (by decide)).1

/-! ## Resume-to-upload skip (C6) -/

/-- C6: a requested recipe whose resume record shows stage `'uploading'` with
a recorded, non-empty path that exists on disk is sent straight to
`upload_to_youtube` with exactly that path: the trace of stage invocations is
`[upload vp id]` — no download, no compression. -/
theorem claim_C6_resume_upload_direct (recipes : List Recipe) (rid vp : String)
    (env : PipelineEnv) (st : SysState) (r : Recipe) (rec : ResumeRecord) (m : Nat)
    (hfind : get_recipe_by_id recipes rid = some r)
    (hused : st.usedRecipes.contains r.id = false)
    (hrec : rdLookup st.resumeData r.id = some rec)
    (hstage : rec.status = Stage.uploading)
    (hvp : rec.videoPath = some vp)
    (hne : vp ≠ "")
    (hex : fsLookup st.fs vp = some m) :
    ∃ out st2 effs, process_single_recipe recipes (some rid) env st
        = (out, st2, effs, [StageCall.upload vp r.id]) := by
  have hnm : r.id ∉ st.usedRecipes := by simpa using hused
  unfold process_single_recipe
  simp only [hfind]
  rw [if_neg (by simpa using hnm)]
  unfold runPipeline
  simp only [hrec, hstage, hvp, hex, hne, if_pos, if_true, ne_eq,
    not_false_eq_true, Option.isSome_some, and_self, if_neg]
  cases hu : (upload_to_youtube r.id vp env.upEvents env.upMaxRetries st).1 with
  | ok url =>
    simp only [hu]
    exact ⟨_, _, _, rfl⟩
  | failed o =>
    simp only [hu]
    exact ⟨_, _, _, rfl⟩
  | keyError =>
    simp only [hu]
    exact ⟨_, _, _, rfl⟩

/-- Witness for C6: resume record for `"7"` in stage uploading pointing at an
existing `temp/c7.mp4`. -/
theorem claim_C6_witness :
    ∃ out st2 effs, process_single_recipe [⟨("7"), ("Dish"), ("u")⟩] (some ("7"))
      ⟨("t"), [], 5, false, none, 0, none, [ChunkEvent.complete ("vid")], 15, false, 0⟩
      ⟨[], [(("7"), ⟨Stage.uploading, ("t"), ("Dish"), some ("temp/c7.mp4")⟩)],
        [(("temp/c7.mp4"), 3000000)]⟩
      = (out, st2, effs, [StageCall.upload ("temp/c7.mp4") ("7")]) :=
  claim_C6_resume_upload_direct [⟨("7"), ("Dish"), ("u")⟩] ("7") ("temp/c7.mp4")
    ⟨("t"), [], 5, false, none, 0, none, [ChunkEvent.complete ("vid")], 15, false, 0⟩
    ⟨[], [(("7"), ⟨Stage.uploading, ("t"), ("Dish"), some ("temp/c7.mp4")⟩)],
      [(("temp/c7.mp4"), 3000000)]⟩
    ⟨("7"), ("Dish"), ("u")⟩ ⟨Stage.uploading, ("t"), ("Dish"), some ("temp/c7.mp4")⟩
    3000000 (by decide) (by decide) (by decide) (by decide) (by decide) (by decide) (by decide)

/-! ## Compressor lemmas (C3, C8) -/

theorem compress_output_le_input (inB c : Nat)
    (h : ¬ (inB : ℚ) / 1048576 * (9 / 10) < (c : ℚ) / 1048576) : c ≤ inB := by
  push_neg at h
  have h2 : (c : ℚ) ≤ (inB : ℚ) := by
    have hin : (0 : ℚ) ≤ (inB : ℚ) := Nat.cast_nonneg _
    nlinarith [h]
  exact_mod_cast h2

theorem compress_video_isSome (inputPath rid : String) (ff : Bool)
    (dur : Option (Nat × Nat × Nat)) (erc : Int) (eout : Option Nat)
    (st : SysState) (rec : ResumeRecord)
    (hrec : rdLookup st.resumeData rid = some rec) :
    ∃ res st2 effs, compress_video inputPath rid ff dur erc eout st
      = some (res, st2, effs) := by
  unfold compress_video
  rw [hrec]
  simp only
  repeat' split
  all_goals exact ⟨_, _, _, rfl⟩

theorem compress_video_props (inputPath rid : String) (ff : Bool)
    (dur : Option (Nat × Nat × Nat)) (erc : Int) (eout : Option Nat)
    (st : SysState) (rec : ResumeRecord) (inBytes : Nat)
    (res : CompressResult) (st2 : SysState) (effs : List Effect)
    (hrec : rdLookup st.resumeData rid = some rec)
    (hin : fsLookup st.fs inputPath = some inBytes)
    (hne : inputPath ≠ compPath rid)
    (hnocache : ∀ c, fsLookup st.fs (compPath rid) = some c → c ≤ 1048576)
    (h : compress_video inputPath rid ff dur erc eout st = some (res, st2, effs)) :
    (ff = false → res.resultPath = inputPath)
    ∧ (erc ≠ 0 → res.resultPath = inputPath)
    ∧ (durationSeconds dur = 0 → res.resultPath = inputPath)
    ∧ (eout = none → fsLookup st.fs (compPath rid) = none → res.resultPath = inputPath)
    ∧ (∀ m, fsLookup st2.fs (compPath rid) = some m →
        (inBytes : ℚ) / 1048576 * (9 / 10) < (m : ℚ) / 1048576 →
        res.resultPath = inputPath)
    ∧ (∃ m, fsLookup st2.fs res.resultPath = some m ∧ m ≤ inBytes) := by
  have hcache : (match fsLookup st.fs (compPath rid) with
      | some c => decide (1048576 < c)
      | none => false) = false := by
    cases hfc : fsLookup st.fs (compPath rid) with
    | none => rfl
    | some c =>
      simp only
      exact decide_eq_false (not_lt.2 (hnocache c hfc))
  unfold compress_video at h
  rw [hrec] at h
  simp only [hcache, Bool.false_eq_true, if_false] at h
  split at h
  next hff =>
    simp only [Option.some.injEq, Prod.mk.injEq] at h
    obtain ⟨hres, hst2, heffs⟩ := h
    subst hres hst2
    exact ⟨fun _ => rfl, fun _ => rfl, fun _ => rfl, fun _ _ => rfl, fun _ _ _ => rfl,
      ⟨inBytes, by simpa using hin, le_rfl⟩⟩
  next hff =>
    split at h
    next heqin =>
      rw [hin] at heqin
      simp at heqin
    next inB heqin =>
      rw [hin] at heqin
      have hinB : inBytes = inB := Option.some.inj heqin
      rw [← hinB] at h
      split at h
      next hsm =>
        simp only [Option.some.injEq, Prod.mk.injEq] at h
        obtain ⟨hres, hst2, heffs⟩ := h
        subst hres hst2
        exact ⟨fun _ => rfl, fun _ => rfl, fun _ => rfl, fun _ _ => rfl, fun _ _ _ => rfl,
          ⟨inBytes, by simpa using hin, le_rfl⟩⟩
      next hsm =>
        split at h
        next hz =>
          simp only [Option.some.injEq, Prod.mk.injEq] at h
          obtain ⟨hres, hst2, heffs⟩ := h
          subst hres hst2
          exact ⟨fun _ => rfl, fun _ => rfl, fun _ => rfl, fun _ _ => rfl, fun _ _ _ => rfl,
            ⟨inBytes, by simpa using hin, le_rfl⟩⟩
        next hz =>
          cases eout with
          | some n =>
            dsimp only at h
            split at h
            next herc =>
              simp only [Option.some.injEq, Prod.mk.injEq] at h
              obtain ⟨hres, hst2, heffs⟩ := h
              subst hres hst2
              exact ⟨fun _ => rfl, fun _ => rfl, fun _ => rfl, fun _ _ => rfl,
                fun _ _ _ => rfl,
                ⟨inBytes,
                  by simpa [fsLookup_fsWrite_ne st.fs (compPath rid) inputPath n hne] using hin,
                  le_rfl⟩⟩
            next herc =>
              split at h
              next heq2 =>
                rw [fsLookup_fsWrite_self] at heq2
                simp at heq2
              next outB heq2 =>
                rw [fsLookup_fsWrite_self] at heq2
                have houtB : outB = n := (Option.some.inj heq2).symm
                subst houtB
                split at h
                next hbig =>
                  simp only [Option.some.injEq, Prod.mk.injEq] at h
                  obtain ⟨hres, hst2, heffs⟩ := h
                  subst hres hst2
                  exact ⟨fun _ => rfl, fun _ => rfl, fun _ => rfl, fun _ _ => rfl,
                    fun _ _ _ => rfl,
                    ⟨inBytes,
                      by simpa [fsLookup_fsWrite_ne st.fs (compPath rid) inputPath outB hne]
                        using hin,
                      le_rfl⟩⟩
                next hbig =>
                  simp only [Option.some.injEq, Prod.mk.injEq] at h
                  obtain ⟨hres, hst2, heffs⟩ := h
                  subst hres hst2
                  refine ⟨fun hc => absurd hc hff, fun hc => absurd hc herc,
                    fun hc => absurd hc hz, fun hc _ => absurd hc (by simp), ?_, ?_⟩
                  · intro m hm hbigm
                    have hm2 : fsLookup (fsWrite st.fs (compPath rid) outB) (compPath rid)
                        = some m := by simpa using hm
                    rw [fsLookup_fsWrite_self] at hm2
                    have hmn : m = outB := (Option.some.inj hm2).symm
                    subst hmn
                    exact absurd hbigm hbig
                  · refine ⟨outB, ?_, compress_output_le_input inBytes outB hbig⟩
                    simpa using fsLookup_fsWrite_self st.fs (compPath rid) outB
          | none =>
            dsimp only at h
            split at h
            next herc =>
              simp only [Option.some.injEq, Prod.mk.injEq] at h
              obtain ⟨hres, hst2, heffs⟩ := h
              subst hres hst2
              exact ⟨fun _ => rfl, fun _ => rfl, fun _ => rfl, fun _ _ => rfl,
                fun _ _ _ => rfl, ⟨inBytes, by simpa using hin, le_rfl⟩⟩
            next herc =>
              split at h
              next heq2 =>
                simp only [Option.some.injEq, Prod.mk.injEq] at h
                obtain ⟨hres, hst2, heffs⟩ := h
                subst hres hst2
                exact ⟨fun _ => rfl, fun _ => rfl, fun _ => rfl, fun _ _ => rfl,
                  fun _ _ _ => rfl, ⟨inBytes, by simpa using hin, le_rfl⟩⟩
              next c heq2 =>
                split at h
                next hbig =>
                  simp only [Option.some.injEq, Prod.mk.injEq] at h
                  obtain ⟨hres, hst2, heffs⟩ := h
                  subst hres hst2
                  exact ⟨fun _ => rfl, fun _ => rfl, fun _ => rfl, fun _ _ => rfl,
                    fun _ _ _ => rfl, ⟨inBytes, by simpa using hin, le_rfl⟩⟩
                next hbig =>
                  simp only [Option.some.injEq, Prod.mk.injEq] at h
                  obtain ⟨hres, hst2, heffs⟩ := h
                  subst hres hst2
                  refine ⟨fun hc => absurd hc hff, fun hc => absurd hc herc,
                    fun hc => absurd hc hz, ?_, ?_, ?_⟩
                  · intro _ hn
                    rw [heq2] at hn
                    simp at hn
                  · intro m hm hbigm
                    have hm2 : fsLookup st.fs (compPath rid) = some m := by simpa using hm
                    rw [heq2] at hm2
                    have hmn : m = c := (Option.some.inj hm2).symm
                    subst hmn
                    exact absurd hbigm hbig
                  · exact ⟨c, by simpa using heq2, compress_output_le_input inBytes c hbig⟩

/-- C3 (amended): when no cached compressed artifact larger than 1 MiB exists
for the identifier, every failure of the compression stage — encoding tool
absent, encoder exiting non-zero, missing output file, output not meaningfully
smaller (more than 90% of the input), or a zero parsed duration (the
`ZeroDivisionError` path; an unparseable duration instead falls back to the
120-second default and compression proceeds) — makes `compress_video` return
the original input path unchanged, and in all those runs the returned path
refers to an existing file no larger than the input; when a cached compressed
artifact larger than 1 MiB exists it is returned unconditionally, with no
comparison against the input. -/
theorem claim_C3_compress_fallback (inputPath rid : String) (ff : Bool)
    (dur : Option (Nat × Nat × Nat)) (erc : Int) (eout : Option Nat)
    (st : SysState) (rec : ResumeRecord) (inBytes : Nat)
    (hrec : rdLookup st.resumeData rid = some rec)
    (hin : fsLookup st.fs inputPath = some inBytes)
    (hne : inputPath ≠ compPath rid) :
    ((∀ c, fsLookup st.fs (compPath rid) = some c → c ≤ 1048576) →
      ∃ res st2 effs, compress_video inputPath rid ff dur erc eout st = some (res, st2, effs)
        ∧ (ff = false → res.resultPath = inputPath)
        ∧ (erc ≠ 0 → res.resultPath = inputPath)
        ∧ (durationSeconds dur = 0 → res.resultPath = inputPath)
        ∧ (eout = none → fsLookup st.fs (compPath rid) = none → res.resultPath = inputPath)
        ∧ (∀ m, fsLookup st2.fs (compPath rid) = some m →
            (inBytes : ℚ) / 1048576 * (9 / 10) < (m : ℚ) / 1048576 →
            res.resultPath = inputPath)
        ∧ (∃ m, fsLookup st2.fs res.resultPath = some m ∧ m ≤ inBytes))
    ∧ (∀ c, fsLookup st.fs (compPath rid) = some c → 1048576 < c →
        ∃ st2 effs, compress_video inputPath rid ff dur erc eout st
          = some (⟨compPath rid, none⟩, st2, effs))
    ∧ durationSeconds none = 120 := by
  refine ⟨?_, ?_, rfl⟩
  · intro hnocache
    obtain ⟨res, st2, effs, heq⟩ :=
      compress_video_isSome inputPath rid ff dur erc eout st rec hrec
    have hp := compress_video_props inputPath rid ff dur erc eout st rec inBytes res st2 effs
      hrec hin hne hnocache heq
    exact ⟨res, st2, effs, heq, hp.1, hp.2.1, hp.2.2.1, hp.2.2.2.1, hp.2.2.2.2.1,
      hp.2.2.2.2.2⟩
  · intro c hfc hc
    refine ⟨{ st with resumeData := rdInsert st.resumeData rid ({ rec with status := Stage.compressing }) }, [Effect.resumeSet rid ({ rec with status := Stage.compressing }), Effect.persistResume], ?_⟩
    simp [compress_video, hrec, hfc, hc]

/-- C3 counterexample: the compressed artifact `compressed_9.mp4` is cached at
5 MiB while the input `original_9.mp4` is only 2 MiB, and the encoding tool is
absent (a listed failure mode).  `compress_video` nevertheless returns the
cached compressed path — not the input path — and the returned file is larger
than the input, refuting both halves of the claim at this input. -/
theorem claim_C3_counterexample :
    (compress_video ("temp_videos/original_9.mp4") ("9") false none 1 none
        ⟨[], [(("9"), ⟨Stage.downloading, ("t"), ("Dish"), none⟩)],
          [(("temp_videos/original_9.mp4"), 2097152),
            (("temp_videos/compressed_9.mp4"), 5242880)]⟩
      = some (⟨("temp_videos/compressed_9.mp4"), none⟩,
          ⟨[], [(("9"), ⟨Stage.compressing, ("t"), ("Dish"), none⟩)],
            [(("temp_videos/original_9.mp4"), 2097152),
              (("temp_videos/compressed_9.mp4"), 5242880)]⟩,
          [Effect.resumeSet ("9") ⟨Stage.compressing, ("t"), ("Dish"), none⟩,
            Effect.persistResume]))
    ∧ ("temp_videos/compressed_9.mp4") ≠ ("temp_videos/original_9.mp4")
    ∧ fsLookup [(("temp_videos/original_9.mp4"), 2097152),
        (("temp_videos/compressed_9.mp4"), 5242880)] ("temp_videos/compressed_9.mp4")
        = some 5242880
    ∧ fsLookup [(("temp_videos/original_9.mp4"), 2097152),
        (("temp_videos/compressed_9.mp4"), 5242880)] ("temp_videos/original_9.mp4")
        = some 2097152
    ∧ ¬ (5242880 ≤ 2097152) :=
  ⟨by decide, by decide, by decide, by decide, by decide⟩

/-- Witness for the amended C3: no cached artifact, encoder absent — the
original 2 MiB input path comes back unchanged and still exists. -/
theorem claim_C3_witness :
    ∃ res st2 effs, compress_video ("temp_videos/original_5.mp4") ("5") false none 0 none
        ⟨[], [(("5"), ⟨Stage.downloading, ("t"), ("D"), none⟩)],
          [(("temp_videos/original_5.mp4"), 2097152)]⟩
      = some (res, st2, effs)
      ∧ (false = false → res.resultPath = ("temp_videos/original_5.mp4"))
      ∧ ((0 : Int) ≠ 0 → res.resultPath = ("temp_videos/original_5.mp4"))
      ∧ (durationSeconds none = 0 → res.resultPath = ("temp_videos/original_5.mp4"))
      ∧ ((none : Option Nat) = none →
          fsLookup [(("temp_videos/original_5.mp4"), 2097152)] (compPath ("5")) = none →
          res.resultPath = ("temp_videos/original_5.mp4"))
      ∧ (∀ m, fsLookup st2.fs (compPath ("5")) = some m →
          ((2097152 : Nat) : ℚ) / 1048576 * (9 / 10) < (m : ℚ) / 1048576 →
          res.resultPath = ("temp_videos/original_5.mp4"))
      ∧ (∃ m, fsLookup st2.fs res.resultPath = some m ∧ m ≤ 2097152) :=
  (claim_C3_compress_fallback ("temp_videos/original_5.mp4") ("5") false none 0 none
    ⟨[], [(("5"), ⟨Stage.downloading, ("t"), ("D"), none⟩)],
      [(("temp_videos/original_5.mp4"), 2097152)]⟩
    ⟨Stage.downloading, ("t"), ("D"), none⟩ 2097152
    (by decide) (by decide) (by decide)).1
    (fun c hc => Option.noConfusion hc)

/-- C8: whenever `compress_video` (with the tool available) actually computes
a target bitrate, the input was at least the 10 MB small-file threshold, the
effective duration is the parsed `HH:MM:SS` value (or the 120-second default
when the pattern did not match) and is non-zero, and the bitrate is exactly
`int((max(5, 0.5 * input_size_mb) * 8 * 1024 * 1024) / duration_seconds)`,
with sizes in MB modelled over `ℚ` and `int` as the floor of this positive
value. -/
theorem claim_C8_target_bitrate (inputPath rid : String) (dur : Option (Nat × Nat × Nat))
    (erc : Int) (eout : Option Nat) (st : SysState) (res : CompressResult)
    (st2 : SysState) (effs : List Effect) (b : ℤ)
    (h : compress_video inputPath rid true dur erc eout st = some (res, st2, effs))
    (hb : res.targetBitrate = some b) :
    ∃ inBytes, fsLookup st.fs inputPath = some inBytes
      ∧ 10485760 ≤ inBytes
      ∧ durationSeconds dur ≠ 0
      ∧ b = ⌊max (5 : ℚ) ((inBytes : ℚ) / 1048576 * (1 / 2)) * 8 * 1024 * 1024
            / ((durationSeconds dur : ℚ))⌋ := by
  unfold compress_video at h
  cases hrec : rdLookup st.resumeData rid with
  | none => rw [hrec] at h; simp at h
  | some rec0 =>
    rw [hrec] at h
    simp only at h
    split at h
    next =>
      simp only [Option.some.injEq, Prod.mk.injEq] at h
      rw [← h.1] at hb
      simp at hb
    next =>
      split at h
      next hff =>
        simp at hff
      next hff =>
        split at h
        next heqin =>
          simp only [Option.some.injEq, Prod.mk.injEq] at h
          rw [← h.1] at hb
          simp at hb
        next inB heqin =>
          split at h
          next hsm =>
            simp only [Option.some.injEq, Prod.mk.injEq] at h
            rw [← h.1] at hb
            simp at hb
          next hsm =>
            split at h
            next hz =>
              simp only [Option.some.injEq, Prod.mk.injEq] at h
              rw [← h.1] at hb
              simp at hb
            next hz =>
              have hbound : 10485760 ≤ inB := by
                by_contra hlt
                push_neg at hlt
                apply hsm
                rw [div_lt_iff (by norm_num : (0 : ℚ) < 1048576)]
                norm_num
                exact_mod_cast hlt
              have key : res.targetBitrate
                  = some ⌊max (5 : ℚ) ((inB : ℚ) / 1048576 * (1 / 2)) * 8 * 1024 * 1024
                      / ((durationSeconds dur : ℚ))⌋ := by
                cases eout with
                | some n =>
                  dsimp only at h
                  split at h
                  next =>
                    simp only [Option.some.injEq, Prod.mk.injEq] at h
                    rw [← h.1]
                  next =>
                    split at h
                    next heq2 =>
                      rw [fsLookup_fsWrite_self] at heq2
                      simp at heq2
                    next outB heq2 =>
                      split at h
                      next =>
                        simp only [Option.some.injEq, Prod.mk.injEq] at h
                        rw [← h.1]
                      next =>
                        simp only [Option.some.injEq, Prod.mk.injEq] at h
                        rw [← h.1]
                | none =>
                  dsimp only at h
                  split at h
                  next =>
                    simp only [Option.some.injEq, Prod.mk.injEq] at h
                    rw [← h.1]
                  next =>
                    split at h
                    next heq2 =>
                      simp only [Option.some.injEq, Prod.mk.injEq] at h
                      rw [← h.1]
                    next c heq2 =>
                      split at h
                      next =>
                        simp only [Option.some.injEq, Prod.mk.injEq] at h
                        rw [← h.1]
                      next =>
                        simp only [Option.some.injEq, Prod.mk.injEq] at h
                        rw [← h.1]
              rw [key] at hb
              exact ⟨inB, heqin, hbound, hz, (Option.some.inj hb).symm⟩

/-- Witness for C8: a 20 MB input with a parsed duration of `00:02:00`
(120 s) yields the bitrate `int((10 MB * 8 * 1024 * 1024) / 120) = 699050`. -/
theorem claim_C8_witness :
    ∃ inBytes, fsLookup (SysState.mk []
        [(("8"), ⟨Stage.downloading, ("t"), ("Dish"), none⟩)]
        [(("temp_videos/original_8.mp4"), 20971520)]).fs ("temp_videos/original_8.mp4")
        = some inBytes
      ∧ 10485760 ≤ inBytes
      ∧ durationSeconds (some (0, 2, 0)) ≠ 0
      ∧ (699050 : ℤ) = ⌊max (5 : ℚ) ((inBytes : ℚ) / 1048576 * (1 / 2)) * 8 * 1024 * 1024
            / ((durationSeconds (some (0, 2, 0)) : ℚ))⌋ :=
  claim_C8_target_bitrate ("temp_videos/original_8.mp4") ("8") (some (0, 2, 0)) 0
    (some 9000000)
    ⟨[], [(("8"), ⟨Stage.downloading, ("t"), ("Dish"), none⟩)],
      [(("temp_videos/original_8.mp4"), 20971520)]⟩
    ⟨("temp_videos/compressed_8.mp4"), some 699050⟩
    ⟨[], [(("8"), ⟨Stage.compressing, ("t"), ("Dish"), none⟩)],
      [(("temp_videos/original_8.mp4"), 20971520),
        (("temp_videos/compressed_8.mp4"), 9000000)]⟩
    [Effect.resumeSet ("8") ⟨Stage.compressing, ("t"), ("Dish"), none⟩,
      Effect.persistResume]
    699050
    (by
      have c4 : ⌊max (5 : ℚ) ((20971520 : ℚ) / 1048576 * (1 / 2)) * 8 * 1024 * 1024
          / ((120 : Nat) : ℚ)⌋ = (699050 : ℤ) := by
        rw [max_eq_right (by norm_num : (5 : ℚ) ≤ 20971520 / 1048576 * (1 / 2))]
        rw [Int.floor_eq_iff]
        constructor <;> norm_num
      simp [compress_video, rdLookup, rdInsert, fsLookup, fsWrite, durationSeconds,
        List.find?, compPath, origPath, c4]
      norm_num)
    rfl


end SeqUploader
